import Mathlib

/-!
Verification of the `minerva` Evernote-extractor pipeline
(`src/tools/evernote_extractor/`): a shallow embedding of the
ENEX parser, the attachment extractor, the markup converter and
the note exporters, followed by theorems settling the spec claims.

Python strings are modelled as `List Char`; Python `None` values
inside dynamic dict entries are modelled with `Option`.  External
library calls (`base64.b64decode`) are passed in as parameters; MD5
(`hashlib.md5`) is implemented in full below.
-/

set_option maxRecDepth 100000

namespace Minerva

/-! ## Python string primitives -/

/-- Python whitespace for `str.strip` and the regex class `\s`
(ASCII fragment: space, tab, newline, carriage return, vertical tab,
form feed). -/
def isPySpace (c : Char) : Bool :=
  c = ' ' || c = '\t' || c = '\n' || c = '\r' || c = '\x0b' || c = '\x0c'

/-- Python `str.strip()` on a character list. -/
def pyStrip (l : List Char) : List Char :=
  ((l.dropWhile isPySpace).reverse.dropWhile isPySpace).reverse

/-- Render an optional string the way a Python f-string renders a
possibly-`None` value: `None` prints as the four characters `None`. -/
def pyOptStr : Option String → String
  | Option.none => "None"
  | Option.some s => s

/-- Python truthiness of an optional string: `None` and `""` are falsy. -/
def pyTruthy : Option String → Bool
  | Option.none => false
  | Option.some s => !s.isEmpty

/-- `str.replace(old, new)` for a single-character `old` with empty `new`:
removes every occurrence of the character. -/
def removeChar (c : Char) (l : List Char) : List Char :=
  l.filter (fun x => x ≠ c)

/-- Python `s.rsplit('.', 1)`: split at the last `'.'`.  Returns `none`
when no dot occurs (Python result `[s]`), otherwise `some (before, after)`
(Python result `[before, after]`). -/
def rsplitDot : List Char → Option (List Char × List Char)
  | [] => Option.none
  | c :: cs =>
    match rsplitDot cs with
    | Option.some (a, b) => Option.some (c :: a, b)
    | Option.none => if c = '.' then Option.some ([], cs) else Option.none

/-! ## A generic left-to-right, non-overlapping scan-and-replace

`re.sub` with a constant or computed replacement scans the subject left to
right; at each position it either matches (consuming at least one
character, emitting the replacement, and continuing after the match
without rescanning the replacement) or moves one character to the right.
`step` returns `(replacement, extra)` where the match consumed
`extra + 1` characters. -/
def scanRepF (step : List Char → Option (List Char × Nat)) :
    Nat → List Char → List Char
  | _, [] => []
  | 0, l => l
  | fuel + 1, c :: cs =>
    match step (c :: cs) with
    | Option.some (rep, extra) => rep ++ scanRepF step fuel (cs.drop extra)
    | Option.none => c :: scanRepF step fuel cs

/-- Every match consumes at least one character, so `l.length` steps of
fuel always suffice; the fuel bound is never hit. -/
def scanRep (step : List Char → Option (List Char × Nat)) (l : List Char) :
    List Char :=
  scanRepF step l.length l

/-- Index of the first occurrence of `pat` as a sublist of `l`
(`none` when absent). -/
def findSub (pat : List Char) : List Char → Option Nat
  | [] => if pat.isEmpty then Option.some 0 else Option.none
  | c :: cs =>
    if pat.isPrefixOf (c :: cs) then Option.some 0
    else (findSub pat cs).map (· + 1)

/-- Length of the maximal prefix satisfying `p`. -/
def spanLen (p : Char → Bool) (l : List Char) : Nat :=
  (l.takeWhile p).length

/-! ## MD5 (RFC 1321), the digest used by `hashlib.md5` in
`attachment_extractor.py` and `enhanced_note_exporter.py`.
Bytes are `Nat`s below 256; all words are `Nat`s reduced mod `2^32`. -/

namespace MD5

def pow32 : Nat := 4294967296

/-- Per-round sine-derived constants `K[i] = floor(2^32 * |sin(i+1)|)`. -/
def kTable : List Nat :=
  [3614090360, 3905402710, 606105819, 3250441966,
   4118548399, 1200080426, 2821735955, 4249261313,
   1770035416, 2336552879, 4294925233, 2304563134,
   1804603682, 4254626195, 2792965006, 1236535329,
   4129170786, 3225465664, 643717713, 3921069994,
   3593408605, 38016083, 3634488961, 3889429448,
   568446438, 3275163606, 4107603335, 1163531501,
   2850285829, 4243563512, 1735328473, 2368359562,
   4294588738, 2272392833, 1839030562, 4259657740,
   2763975236, 1272893353, 4139469664, 3200236656,
   681279174, 3936430074, 3572445317, 76029189,
   3654602809, 3873151461, 530742520, 3299628645,
   4096336452, 1126891415, 2878612391, 4237533241,
   1700485571, 2399980690, 4293915773, 2240044497,
   1873313359, 4264355552, 2734768916, 1309151649,
   4149444226, 3174756917, 718787259, 3951481745]

/-- Per-round left-rotation amounts. -/
def sTable : List Nat :=
  [7, 12, 17, 22, 7, 12, 17, 22, 7, 12, 17, 22, 7, 12, 17, 22,
   5, 9, 14, 20, 5, 9, 14, 20, 5, 9, 14, 20, 5, 9, 14, 20,
   4, 11, 16, 23, 4, 11, 16, 23, 4, 11, 16, 23, 4, 11, 16, 23,
   6, 10, 15, 21, 6, 10, 15, 21, 6, 10, 15, 21, 6, 10, 15, 21]

/-- 32-bit left rotation (argument assumed below `2^32`). -/
def rotl32 (x n : Nat) : Nat :=
  (((x <<< n) % pow32) ||| (x >>> (32 - n)))

/-- One of the 64 MD5 rounds, acting on the state `(a, b, c, d)`. -/
def md5Round (m : List Nat) (st : Nat × Nat × Nat × Nat) (i : Nat) :
    Nat × Nat × Nat × Nat :=
  let a := st.1
  let b := st.2.1
  let c := st.2.2.1
  let d := st.2.2.2
  let fg : Nat × Nat :=
    if i < 16 then ((b &&& c) ||| ((b ^^^ 4294967295) &&& d), i)
    else if i < 32 then ((d &&& b) ||| ((d ^^^ 4294967295) &&& c), (5 * i + 1) % 16)
    else if i < 48 then (b ^^^ c ^^^ d, (3 * i + 5) % 16)
    else (c ^^^ (b ||| (d ^^^ 4294967295)), (7 * i) % 16)
  let f := (fg.1 + a + kTable.getD i 0 + m.getD fg.2 0) % pow32
  (d, (b + rotl32 f (sTable.getD i 0)) % pow32, b, c)

def chunks64F : Nat → List Nat → List (List Nat)
  | _, [] => []
  | 0, _ => []
  | fuel + 1, c :: cs => (c :: cs).take 64 :: chunks64F fuel ((c :: cs).drop 64)

/-- Split the padded message into 64-byte blocks (each step consumes at
least one byte, so `l.length` steps of fuel always suffice). -/
def chunks64 (l : List Nat) : List (List Nat) :=
  chunks64F l.length l

/-- A 64-byte block as sixteen little-endian 32-bit words. -/
def blockWords (blk : List Nat) : List Nat :=
  (List.range 16).map (fun j =>
    blk.getD (4 * j) 0 + blk.getD (4 * j + 1) 0 * 256 +
    blk.getD (4 * j + 2) 0 * 65536 + blk.getD (4 * j + 3) 0 * 16777216)

/-- Merkle–Damgård padding: a `0x80` byte, zeros to 56 mod 64, then the
original bit length as eight little-endian bytes. -/
def padMessage (msg : List Nat) : List Nat :=
  let padZeros := (119 - msg.length % 64) % 64
  let bitLen := (msg.length * 8) % (2 ^ 64)
  msg ++ 128 :: List.replicate padZeros 0 ++
    (List.range 8).map (fun k => (bitLen >>> (8 * k)) &&& 255)

/-- Process one block against the running state `(h0, h1, h2, h3)`. -/
def processBlock (h : Nat × Nat × Nat × Nat) (blk : List Nat) :
    Nat × Nat × Nat × Nat :=
  let m := blockWords blk
  let st := (List.range 64).foldl (md5Round m) h
  ((h.1 + st.1) % pow32, (h.2.1 + st.2.1) % pow32,
   (h.2.2.1 + st.2.2.1) % pow32, (h.2.2.2 + st.2.2.2) % pow32)

/-- The four state words after digesting `msg`. -/
def md5State (msg : List Nat) : Nat × Nat × Nat × Nat :=
  (chunks64 (padMessage msg)).foldl processBlock
    (1732584193, 4023233417, 2562383102, 271733878)

def hexChar (n : Nat) : Char :=
  if n < 10 then Char.ofNat (48 + n) else Char.ofNat (87 + n)

/-- A byte as two lowercase hex characters. -/
def byteHex (b : Nat) : List Char :=
  [hexChar (b / 16), hexChar (b % 16)]

/-- A 32-bit word as four little-endian bytes. -/
def wordLEBytes (w : Nat) : List Nat :=
  [w % 256, (w >>> 8) % 256, (w >>> 16) % 256, (w >>> 24) % 256]

/-- `hashlib.md5(bytes).hexdigest()`: the 32-character lowercase hex
digest of a byte string. -/
def hexdigest (msg : List Nat) : List Char :=
  let st := md5State msg
  ((wordLEBytes st.1 ++ wordLEBytes st.2.1 ++
    wordLEBytes st.2.2.1 ++ wordLEBytes st.2.2.2).map byteHex).flatten

end MD5

/-! ## Matchers for the individual regex rewrites

Each Python `re.sub` pass is one `scanRep` with a matcher below.  A
matcher receives the remaining subject and returns the replacement and
`consumed - 1` on a match at the current position. -/

/-- Replace a fixed literal pattern (`re.sub` with a literal regex such as
`</en-note>` or `</p>`). Patterns used below are nonempty. -/
def litStep (pat rep : List Char) (l : List Char) : Option (List Char × Nat) :=
  if pat.isPrefixOf l then Option.some (rep, pat.length - 1) else Option.none

/-- Match `pre[^>]*>` (for example `<en-note[^>]*>` or `<p[^>]*>`):
the literal prefix, then everything up to and including the next `>`. -/
def tagOpenStep (pre rep : List Char) (l : List Char) : Option (List Char × Nat) :=
  if pre.isPrefixOf l then
    match (l.drop pre.length).findIdx? (fun c => c = '>') with
    | Option.some j => Option.some (rep, pre.length + j)
    | Option.none => Option.none
  else Option.none

/-- Match `<br\s*/?>`. -/
def brStep (l : List Char) : Option (List Char × Nat) :=
  if ('<' :: 'b' :: 'r' :: []).isPrefixOf l then
    let rest := l.drop 3
    let k := spanLen isPySpace rest
    match rest.drop k with
    | '/' :: '>' :: _ => Option.some ('\n' :: [], 3 + k + 1)
    | '>' :: _ => Option.some ('\n' :: [], 3 + k)
    | _ => Option.none
  else Option.none

/-- Match `<[^>]+>` (strip any remaining tag). -/
def genericTagStep (l : List Char) : Option (List Char × Nat) :=
  match l with
  | '<' :: rest =>
    (match rest.findIdx? (fun c => c = '>') with
     | Option.some j => if j = 0 then Option.none else Option.some ([], j + 1)
     | Option.none => Option.none)
  | _ => Option.none

/-- Match a maximal run of at least `minRun` newlines
(`\n{3,}` and `\n{4,}`). -/
def newlineRunStep (minRun : Nat) (rep : List Char) (l : List Char) :
    Option (List Char × Nat) :=
  if (List.replicate minRun '\n').isPrefixOf l then
    Option.some (rep, spanLen (fun c => c = '\n') l - 1)
  else Option.none

/-- Match `[ \t]+\n` (trailing blanks before a newline). -/
def trailingBlankStep (l : List Char) : Option (List Char × Nat) :=
  if (l.headD ' ') = ' ' ∨ (l.headD 'x') = '\t' then
    match l with
    | c :: _ =>
      if c = ' ' ∨ c = '\t' then
        let k := spanLen (fun x => x = ' ' ∨ x = '\t') l
        match l.drop k with
        | '\n' :: _ => Option.some ('\n' :: [], k)
        | _ => Option.none
      else Option.none
    | [] => Option.none
  else Option.none

/-- Match `<!\[CDATA\[(.*?)\]\]>`, keeping the (lazily matched) body. -/
def cdataStep (l : List Char) : Option (List Char × Nat) :=
  let opener := "<![CDATA[".data
  if opener.isPrefixOf l then
    let rest := l.drop 9
    match findSub "]]>".data rest with
    | Option.some j => Option.some (rest.take j, 9 + j + 3 - 1)
    | Option.none => Option.none
  else Option.none

/-! ## HTML entity decoding

A model of `html.unescape` restricted to decimal and hexadecimal
character references and the basic named entities; the full CP-1252
remapping of `&#128;`–`&#159;` and the long HTML5 entity table are not
reproduced (no input below uses them). -/

def isDigitChar (c : Char) : Bool := 48 ≤ c.toNat && c.toNat ≤ 57

def isHexDigitChar (c : Char) : Bool :=
  isDigitChar c || (97 ≤ c.toNat && c.toNat ≤ 102) || (65 ≤ c.toNat && c.toNat ≤ 70)

def decDigitsToNat (l : List Char) : Nat :=
  l.foldl (fun a c => 10 * a + (c.toNat - 48)) 0

def hexDigitVal (c : Char) : Nat :=
  if isDigitChar c then c.toNat - 48
  else if 97 ≤ c.toNat then c.toNat - 87 else c.toNat - 55

def hexDigitsToNat (l : List Char) : Nat :=
  l.foldl (fun a c => 16 * a + hexDigitVal c) 0

/-- Named entities recognised by the model, longest form first
(`html.unescape` prefers the form ending in `;`). -/
def namedEntities : List (List Char × Char) :=
  [("amp;".data, '&'), ("lt;".data, '<'), ("gt;".data, '>'),
   ("quot;".data, '"'), ("apos;".data, '\''), ("nbsp;".data, Char.ofNat 160),
   ("amp".data, '&'), ("lt".data, '<'), ("gt".data, '>'), ("quot".data, '"')]

def unescapeStep (l : List Char) : Option (List Char × Nat) :=
  match l with
  | '&' :: '#' :: rest =>
    (match rest with
     | x :: rest2 =>
       if x = 'x' ∨ x = 'X' then
         let ds := rest2.takeWhile isHexDigitChar
         if ds.isEmpty then Option.none
         else
           let semi := if (rest2.drop ds.length).headD 'q' = ';' then 1 else 0
           Option.some (Char.ofNat (hexDigitsToNat ds) :: [], 2 + ds.length + semi)
       else
         let ds := rest.takeWhile isDigitChar
         if ds.isEmpty then Option.none
         else
           let semi := if (rest.drop ds.length).headD 'q' = ';' then 1 else 0
           Option.some (Char.ofNat (decDigitsToNat ds) :: [], 1 + ds.length + semi)
     | [] => Option.none)
  | '&' :: rest =>
    (namedEntities.find? (fun p => p.1.isPrefixOf rest)).map
      (fun p => (p.2 :: [], p.1.length))
  | _ => Option.none

def unescape (l : List Char) : List Char := scanRep unescapeStep l

/-! ## XML element trees

A parsed `xml.etree.ElementTree` element: tag, attributes, text and
direct children.  `find`/`findall` with a plain tag path look only at
direct children, in document order. -/

inductive XmlElem where
  | mk (tag : String) (attrs : List (String × String)) (text : Option String)
       (children : List XmlElem)

def XmlElem.tag : XmlElem → String
  | XmlElem.mk t _ _ _ => t

def XmlElem.attrs : XmlElem → List (String × String)
  | XmlElem.mk _ a _ _ => a

def XmlElem.text : XmlElem → Option String
  | XmlElem.mk _ _ t _ => t

def XmlElem.children : XmlElem → List XmlElem
  | XmlElem.mk _ _ _ c => c

/-- `elem.find(tag)`: the first direct child with the given tag. -/
def XmlElem.findChild (e : XmlElem) (t : String) : Option XmlElem :=
  e.children.find? (fun c => c.tag = t)

/-- `elem.findall(tag)`: all direct children with the given tag. -/
def XmlElem.findAll (e : XmlElem) (t : String) : List XmlElem :=
  e.children.filter (fun c => c.tag = t)

/-- `elem.get(name)`: attribute lookup, `None` when absent. -/
def XmlElem.attrGet (e : XmlElem) (k : String) : Option String :=
  (e.attrs.find? (fun p => p.1 = k)).map (fun p => p.2)

/-! ## `ENEXParser` (`enex_parser.py`)

Note dicts are dynamic in the source, so they are modelled as ordered
association lists; Python dict truthiness is emptiness of that list.
`base64.b64decode` is external library code and is passed in as a
parameter `b64len : String → Option Nat` giving the decoded length
(`none` models a decoding exception, which the parser does not catch). -/

/-- A value stored in a resource dict: `mime` / `filename` texts may be
`None`, `size` is an int. -/
inductive ResVal where
  | none
  | str (s : String)
  | nat (n : Nat)
deriving DecidableEq

abbrev ResDict := List (String × ResVal)

/-- A value stored in a note dict. -/
inductive PyVal where
  | none
  | str (s : String)
  | strList (l : List String)
  | strDict (l : List (String × String))
  | resources (l : List ResDict)
deriving DecidableEq

abbrev NoteDict := List (String × PyVal)

def optToResVal : Option String → ResVal
  | Option.none => ResVal.none
  | Option.some s => ResVal.str s

def optToPyVal : Option String → PyVal
  | Option.none => PyVal.none
  | Option.some s => PyVal.str s

/-- Number of days in a month (proleptic Gregorian, as `datetime`). -/
def daysInMonth (y m : Nat) : Nat :=
  if m = 2 then
    if y % 4 = 0 ∧ (y % 100 ≠ 0 ∨ y % 400 = 0) then 29 else 28
  else if m = 4 ∨ m = 6 ∨ m = 9 ∨ m = 11 then 30
  else 31

/-- `datetime.strptime(s[:15], "%Y%m%dT%H%M%S").isoformat()` on the
fixed-width 15-character form `YYYYMMDDTHHMMSS` (`strptime` additionally
accepts some shorter ambiguous digit runs, which no claim exercises);
`none` models a `ValueError`. -/
def strptime15 (s : String) : Option String :=
  match s.data.take 15 with
  | [y1, y2, y3, y4, m1, m2, d1, d2, t, h1, h2, i1, i2, s1, s2] =>
    if ([y1, y2, y3, y4, m1, m2, d1, d2, h1, h2, i1, i2, s1, s2].all isDigitChar) ∧
        t = 'T' then
      let y := decDigitsToNat [y1, y2, y3, y4]
      let mo := decDigitsToNat [m1, m2]
      let d := decDigitsToNat [d1, d2]
      let h := decDigitsToNat [h1, h2]
      let mi := decDigitsToNat [i1, i2]
      let sec := decDigitsToNat [s1, s2]
      if 1 ≤ y ∧ 1 ≤ mo ∧ mo ≤ 12 ∧ 1 ≤ d ∧ d ≤ daysInMonth y mo ∧
          h ≤ 23 ∧ mi ≤ 59 ∧ sec ≤ 59 then
        Option.some (String.mk
          ([y1, y2, y3, y4, '-', m1, m2, '-', d1, d2, 'T',
            h1, h2, ':', i1, i2, ':', s1, s2]))
      else Option.none
    else Option.none
  | _ => Option.none

/-- `ENEXParser._parse_date`: on any parse failure (including a `None`
argument) the raw value is returned unchanged. -/
def parseDate : Option String → PyVal
  | Option.none => PyVal.none
  | Option.some s =>
    match strptime15 s with
    | Option.some iso => PyVal.str iso
    | Option.none => PyVal.str s

/-- Insertion-ordered dict update: an existing key keeps its slot. -/
def dictUpdateS (d : List (String × String)) (k v : String) :
    List (String × String) :=
  if d.any (fun p => p.1 = k) then
    d.map (fun p => if p.1 = k then (k, v) else p)
  else d ++ [(k, v)]

/-- `ENEXParser._parse_attributes`: one entry per child with truthy text. -/
def parseAttributes (attrsElem : XmlElem) : List (String × String) :=
  attrsElem.children.foldl
    (fun d c =>
      match c.text with
      | Option.some s => if s.isEmpty then d else dictUpdateS d c.tag s
      | Option.none => d)
    []

/-- `ENEXParser._parse_resource`.  The result is `none` exactly when
`base64.b64decode` raises (that exception is not caught and aborts the
whole parse). -/
def parseResource (b64len : String → Option Nat) (e : XmlElem) :
    Option ResDict :=
  let r1 : ResDict :=
    match e.findChild "mime" with
    | Option.some me => [("mime", optToResVal me.text)]
    | Option.none => []
  let r2 : ResDict :=
    match e.findChild "resource-attributes" with
    | Option.some attrs =>
      (match attrs.findChild "file-name" with
       | Option.some fe => r1 ++ [("filename", optToResVal fe.text)]
       | Option.none => r1)
    | Option.none => r1
  match e.findChild "data" with
  | Option.some de =>
    (match de.text with
     | Option.some txt =>
       if de.attrGet "encoding" = Option.some "base64" ∧ ¬ txt.isEmpty then
         match b64len txt with
         | Option.some n => Option.some (r2 ++ [("size", ResVal.nat n)])
         | Option.none => Option.none
       else Option.some r2
     | Option.none => Option.some r2)
  | Option.none => Option.some r2

/-- `ENEXParser._html_to_text`: the ordered rewrite chain converting
ENML/HTML to plain text. -/
def htmlToText (o : Option String) : String :=
  if pyTruthy o then
    let t0 := (o.getD "").data
    let t1 := scanRep cdataStep t0
    let t2 := scanRep (tagOpenStep "<en-note".data []) t1
    let t3 := scanRep (litStep "</en-note>".data []) t2
    let t4 := scanRep (tagOpenStep "<en-media".data "[Attachment]".data) t3
    let t5 := unescape t4
    let t6 := scanRep brStep t5
    let t7 := scanRep (litStep "</p>".data "\n\n".data) t6
    let t8 := scanRep genericTagStep t7
    let t9 := scanRep (newlineRunStep 3 "\n\n".data) t8
    String.mk (pyStrip t9)
  else ""

/-- The resource loop of `_parse_note`: parse each `<resource>` child,
append only truthy (non-empty) dicts, propagate decode exceptions. -/
def parseResourceList (b64len : String → Option Nat) :
    List XmlElem → Option (List ResDict)
  | [] => Option.some []
  | e :: es => do
    let r ← parseResource b64len e
    let rest ← parseResourceList b64len es
    pure (if r.isEmpty then rest else r :: rest)

/-- `ENEXParser._parse_note`: the note dict, entries in assignment order. -/
def parseNote (b64len : String → Option Nat) (e : XmlElem) :
    Option NoteDict := do
  let titleEntry : NoteDict :=
    [("title",
      match e.findChild "title" with
      | Option.some te => optToPyVal te.text
      | Option.none => PyVal.str "Untitled")]
  let contentEntries : NoteDict :=
    match e.findChild "content" with
    | Option.some ce =>
      [("content_html", optToPyVal ce.text),
       ("content_text", PyVal.str (htmlToText ce.text))]
    | Option.none =>
      [("content_html", PyVal.str ""), ("content_text", PyVal.str "")]
  let createdEntries : NoteDict :=
    match e.findChild "created" with
    | Option.some ce => [("created", parseDate ce.text)]
    | Option.none => []
  let modifiedEntries : NoteDict :=
    match e.findChild "updated" with
    | Option.some ue => [("modified", parseDate ue.text)]
    | Option.none => []
  let tags : List String :=
    (e.findAll "tag").filterMap (fun te =>
      match te.text with
      | Option.some s => if s.isEmpty then Option.none else Option.some s
      | Option.none => Option.none)
  let attrEntries : NoteDict :=
    match e.findChild "note-attributes" with
    | Option.some ae => [("attributes", PyVal.strDict (parseAttributes ae))]
    | Option.none => []
  let resources ← parseResourceList b64len (e.findAll "resource")
  pure (titleEntry ++ contentEntries ++ createdEntries ++ modifiedEntries ++
    [("tags", PyVal.strList tags)] ++ attrEntries ++
    [("resources", PyVal.resources resources)])

/-- The note loop of `parse_enex_file`: parse each `<note>` child of the
root, keep only truthy dicts, propagate exceptions. -/
def parseNoteList (b64len : String → Option Nat) :
    List XmlElem → Option (List NoteDict)
  | [] => Option.some []
  | e :: es => do
    let n ← parseNote b64len e
    let rest ← parseNoteList b64len es
    pure (if n.isEmpty then rest else n :: rest)

/-- `ENEXParser.parse_enex_file` after the XML parse: one record per
`<note>` element of the root, subject to the truthiness filter. -/
def parseEnexFile (b64len : String → Option Nat) (root : XmlElem) :
    Option (List NoteDict) :=
  parseNoteList b64len (root.findAll "note")

/-! ## `AttachmentExtractor` (`attachment_extractor.py`)

`base64.b64decode` is passed in as `b64 : String → Option (List Nat)`
(`none` models a decoding exception, which `_extract_resource` catches).
The file write performed on success is returned explicitly as a
`FileWrite`. -/

/-- One file written to the attachments directory. -/
structure FileWrite where
  path : String
  bytes : List Nat
deriving DecidableEq

/-- The `attachment_info` dict built by
`AttachmentExtractor._extract_resource`; every key is always present. -/
structure AttachmentInfo where
  hash : String
  filename : String
  original_filename : Option String
  mime_type : Option String
  size : Nat
  file_path : String
  note_index : Nat
deriving DecidableEq

/-- The MIME-to-extension table of `_get_extension_from_mime`
(identical in `attachment_extractor.py` and `enhanced_note_exporter.py`). -/
def mimeToExt : List (String × String) :=
  [("image/jpeg", ".jpg"),
   ("image/png", ".png"),
   ("image/gif", ".gif"),
   ("image/svg+xml", ".svg"),
   ("image/webp", ".webp"),
   ("application/pdf", ".pdf"),
   ("text/plain", ".txt"),
   ("text/html", ".html"),
   ("application/msword", ".doc"),
   ("application/vnd.openxmlformats-officedocument.wordprocessingml.document", ".docx"),
   ("application/vnd.ms-excel", ".xls"),
   ("application/vnd.openxmlformats-officedocument.spreadsheetml.sheet", ".xlsx"),
   ("application/zip", ".zip"),
   ("audio/mpeg", ".mp3"),
   ("video/mp4", ".mp4")]

/-- `_get_extension_from_mime`: `mime_to_ext.get(mime_type, '.bin')`.
The argument may be `None` (a `<mime>` element with no text), which is
simply not a key of the table. -/
def getExtensionFromMime (m : Option String) : String :=
  match m with
  | Option.some s => ((mimeToExt.find? (fun p => p.1 = s)).map (fun p => p.2)).getD ".bin"
  | Option.none => ".bin"

/-- Filename resolution of `_extract_resource` (lines 101–121): either
synthesized from the hash and MIME extension, or the declared name
cleaned, truncated and prefixed with the hash. -/
def resolveFilename (dataHash : String) (mimeType : Option String)
    (declared : Option String) : String :=
  if pyTruthy declared = false then
    dataHash ++ getExtensionFromMime mimeType
  else
    let f := declared.getD ""
    let clean := pyStrip (removeChar '\r' (removeChar '\n' f.data))
    let clean2 :=
      if clean.length > 50 then
        match rsplitDot clean with
        | Option.some (st, ex) => st.take 40 ++ '.' :: ex
        | Option.none => clean.take 50
      else clean
    match rsplitDot clean2 with
    | Option.some (st, ex) =>
      dataHash ++ "_" ++ String.mk st ++ "." ++ String.mk ex
    | Option.none => dataHash ++ "_" ++ String.mk clean2

/-- The declared `file-name` of a resource element
(`resource-attributes/file-name`), `None`-valued text included. -/
def declaredFilename (e : XmlElem) : Option String :=
  match e.findChild "resource-attributes" with
  | Option.some attrs =>
    (match attrs.findChild "file-name" with
     | Option.some fe => fe.text
     | Option.none => Option.none)
  | Option.none => Option.none

/-- The MIME type of a resource element: the (possibly `None`) text of
`<mime>`, defaulting to `application/octet-stream` when the element is
absent. -/
def resourceMime (e : XmlElem) : Option String :=
  match e.findChild "mime" with
  | Option.some me => me.text
  | Option.none => Option.some "application/octet-stream"

/-- `AttachmentExtractor._extract_resource`: returns the
`attachment_info` dict (or `None` when the resource is skipped) together
with the file write it performed. -/
def extractResource (b64 : String → Option (List Nat))
    (attachmentsDir : String) (noteIdx : Nat) (e : XmlElem) :
    Option AttachmentInfo × List FileWrite :=
  match e.findChild "data" with
  | Option.none => (Option.none, [])
  | Option.some de =>
    if pyTruthy de.text = false then (Option.none, [])
    else if (de.attrGet "encoding").getD "" ≠ "base64" then (Option.none, [])
    else
      match b64 (de.text.getD "") with
      | Option.none => (Option.none, [])
      | Option.some bytes =>
        let dataHash := String.mk ((MD5.hexdigest bytes).take 8)
        let filename := resolveFilename dataHash (resourceMime e) (declaredFilename e)
        let path := attachmentsDir ++ "/" ++ filename
        (Option.some
          { hash := dataHash
            filename := filename
            original_filename := declaredFilename e
            mime_type := resourceMime e
            size := bytes.length
            file_path := path
            note_index := noteIdx },
         [⟨path, bytes⟩])

/-- The per-note resource loop of `extract_attachments_from_enex`:
skipped resources contribute nothing, extraction continues. -/
def extractNoteResources (b64 : String → Option (List Nat))
    (attachmentsDir : String) (noteIdx : Nat) :
    List XmlElem → List AttachmentInfo × List FileWrite
  | [] => ([], [])
  | r :: rest =>
    let head := extractResource b64 attachmentsDir noteIdx r
    let tail := extractNoteResources b64 attachmentsDir noteIdx rest
    ((match head.1 with
      | Option.some i => i :: tail.1
      | Option.none => tail.1),
     head.2 ++ tail.2)

/-! ## `EnhancedNoteExporter` (`enhanced_note_exporter.py`)

Its `_extract_resource` extends the attachment-extractor dict with
`resource_hash`, `relative_path` and `is_image`; its
`_html_to_markdown_with_images` is the Markdown rewrite chain. -/

/-- The `attachment_info` dict of `EnhancedNoteExporter._extract_resource`;
every key is always present. `is_image` is
`mime_type.startswith('image/')` (the source would raise on a `None`
MIME text; `false` here, no claim exercises that corner). -/
structure EAttachmentInfo where
  hash : String
  resource_hash : Option String
  filename : String
  original_filename : Option String
  mime_type : Option String
  size : Nat
  file_path : String
  relative_path : String
  note_index : Nat
  is_image : Bool
deriving DecidableEq

/-- `EnhancedNoteExporter._extract_resource`. -/
def eExtractResource (b64 : String → Option (List Nat))
    (attachmentsDir : String) (noteIdx : Nat) (e : XmlElem) :
    Option EAttachmentInfo × List FileWrite :=
  match e.findChild "data" with
  | Option.none => (Option.none, [])
  | Option.some de =>
    if pyTruthy de.text = false then (Option.none, [])
    else if (de.attrGet "encoding").getD "" ≠ "base64" then (Option.none, [])
    else
      match b64 (de.text.getD "") with
      | Option.none => (Option.none, [])
      | Option.some bytes =>
        let dataHash := String.mk ((MD5.hexdigest bytes).take 8)
        let mimeType := resourceMime e
        let filename := resolveFilename dataHash mimeType (declaredFilename e)
        let path := attachmentsDir ++ "/" ++ filename
        (Option.some
          { hash := dataHash
            resource_hash := de.attrGet "hash"
            filename := filename
            original_filename := declaredFilename e
            mime_type := mimeType
            size := bytes.length
            file_path := path
            relative_path := "attachments/" ++ filename
            note_index := noteIdx
            is_image := (mimeType.getD "").startsWith "image/" && mimeType.isSome },
         [⟨path, bytes⟩])

/-- The `resource_lookup` dict of `_html_to_markdown_with_images`: one
entry per resource with truthy `resource_hash`; a repeated hash keeps the
last resource (dict overwrite). -/
def resourceLookup (resources : List EAttachmentInfo) (h : String) :
    Option EAttachmentInfo :=
  ((resources.filter (fun r => pyTruthy r.resource_hash)).reverse).find?
    (fun r => r.resource_hash = Option.some h)

/-- `re.search(r'hash="([^"]+)"', tag)`: the first position where the
full pattern (including a nonempty capture and its closing quote)
matches. -/
def hashAttr : List Char → Option (List Char)
  | [] => Option.none
  | c :: cs =>
    if "hash=\"".data.isPrefixOf (c :: cs) then
      let rest := (c :: cs).drop 6
      let cap := rest.takeWhile (fun x => x ≠ '"')
      if cap.isEmpty = false ∧ cap.length < rest.length then Option.some cap
      else hashAttr cs
    else hashAttr cs

/-- The `replace_media` callback: Markdown produced for one matched
`<en-media ...>` tag.  `resource.get('original_filename', 'Image')` and
`resource.get('original_filename', 'Attachment')` never see their
defaults because the dict always carries the key (its value may be
`None`, which the f-string renders as the text `None`). -/
def replaceMedia (resources : List EAttachmentInfo) (mediaTag : List Char) :
    List Char :=
  match hashAttr mediaTag with
  | Option.some h =>
    (match resourceLookup resources (String.mk h) with
     | Option.some r =>
       if r.is_image then
         ("\n\n![" ++ pyOptStr r.original_filename ++ "](" ++
           r.relative_path ++ ")\n\n").data
       else
         ("\n\n[📎 " ++ pyOptStr r.original_filename ++ "](" ++
           r.relative_path ++ ")\n\n").data
     | Option.none => "\n\n[Attachment]\n\n".data)
  | Option.none => "\n\n[Attachment]\n\n".data

/-- Match `<en-media[^>]*/?>` and rewrite it through `replace_media`. -/
def enMediaStep (resources : List EAttachmentInfo) (l : List Char) :
    Option (List Char × Nat) :=
  if "<en-media".data.isPrefixOf l then
    match (l.drop 9).findIdx? (fun c => c = '>') with
    | Option.some j =>
      Option.some (replaceMedia resources (l.take (9 + j + 1)), 9 + j)
    | Option.none => Option.none
  else Option.none

/-- Match `pre[^>]*>(.*?)close` (heading, bold, italic tags; the inner
capture is lazy, i.e. up to the first closing tag). -/
def pairTagStep (pre close : List Char) (mkRep : List Char → List Char)
    (l : List Char) : Option (List Char × Nat) :=
  if pre.isPrefixOf l then
    match (l.drop pre.length).findIdx? (fun c => c = '>') with
    | Option.some j =>
      let innerStart := pre.length + j + 1
      (match findSub close (l.drop innerStart) with
       | Option.some k =>
         Option.some (mkRep ((l.drop innerStart).take k),
           innerStart + k + close.length - 1)
       | Option.none => Option.none)
    | Option.none => Option.none
  else Option.none

/-- Match `<a[^>]+href="([^"]+)"[^>]*>(.*?)</a>` and rewrite to
`[text](url)`.  The greedy `[^>]+` backtracks, so the rightmost
`href="` inside the '>'-free region that lets the rest match wins. -/
def aStepAttempt (l rest : List Char) (q : Nat) : Option (List Char × Nat) :=
  let u := (rest.drop (q + 6)).takeWhile (fun c => c ≠ '"')
  if u.isEmpty ∨ ¬ u.length < (rest.drop (q + 6)).length then Option.none
  else
    let afterUrl := rest.drop (q + 6 + u.length + 1)
    let b := afterUrl.takeWhile (fun c => c ≠ '>')
    if ¬ b.length < afterUrl.length then Option.none
    else
      let innerStart := 2 + q + 6 + u.length + 1 + b.length + 1
      match findSub "</a>".data (l.drop innerStart) with
      | Option.some k =>
        Option.some (('[' :: ((l.drop innerStart).take k)) ++ ']' :: '(' :: u ++ [')'],
          innerStart + k + 4 - 1)
      | Option.none => Option.none

def aStepTry (l rest : List Char) : List Nat → Option (List Char × Nat)
  | [] => Option.none
  | q :: qs =>
    match aStepAttempt l rest q with
    | Option.some r => Option.some r
    | Option.none => aStepTry l rest qs

def aStep (l : List Char) : Option (List Char × Nat) :=
  if "<a".data.isPrefixOf l then
    let rest := l.drop 2
    let z := spanLen (fun c => c ≠ '>') rest
    let qs := ((List.range (z + 1)).filter
      (fun q => 1 ≤ q ∧ "href=\"".data.isPrefixOf (rest.drop q))).reverse
    aStepTry l rest qs
  else Option.none

/-- Rewrites 2–24 of `_html_to_markdown_with_images` (everything between
the CDATA strip and the whitespace cleanup), in source order. -/
def mdTagStages (resources : List EAttachmentInfo) (t : List Char) : List Char :=
  let t2 := scanRep (enMediaStep resources) t
  let t3 := scanRep (tagOpenStep "<en-note".data []) t2
  let t4 := scanRep (litStep "</en-note>".data []) t3
  let t5 := scanRep brStep t4
  let t6 := scanRep (tagOpenStep "<p".data "\n\n".data) t5
  let t7 := scanRep (litStep "</p>".data "\n\n".data) t6
  let t8 := scanRep (tagOpenStep "<div".data "\n\n".data) t7
  let t9 := scanRep (litStep "</div>".data "\n\n".data) t8
  let t10 := scanRep (pairTagStep "<h1".data "</h1>".data
    (fun inner => "\n\n# ".data ++ inner ++ "\n\n".data)) t9
  let t11 := scanRep (pairTagStep "<h2".data "</h2>".data
    (fun inner => "\n\n## ".data ++ inner ++ "\n\n".data)) t10
  let t12 := scanRep (pairTagStep "<h3".data "</h3>".data
    (fun inner => "\n\n### ".data ++ inner ++ "\n\n".data)) t11
  let t13 := scanRep (pairTagStep "<strong".data "</strong>".data
    (fun inner => "**".data ++ inner ++ "**".data)) t12
  let t14 := scanRep (pairTagStep "<b".data "</b>".data
    (fun inner => "**".data ++ inner ++ "**".data)) t13
  let t15 := scanRep (pairTagStep "<em".data "</em>".data
    (fun inner => "*".data ++ inner ++ "*".data)) t14
  let t16 := scanRep (pairTagStep "<i".data "</i>".data
    (fun inner => "*".data ++ inner ++ "*".data)) t15
  let t17 := scanRep aStep t16
  let t18 := scanRep (tagOpenStep "<ul".data "\n".data) t17
  let t19 := scanRep (litStep "</ul>".data "\n".data) t18
  let t20 := scanRep (tagOpenStep "<ol".data "\n".data) t19
  let t21 := scanRep (litStep "</ol>".data "\n".data) t20
  let t22 := scanRep (tagOpenStep "<li".data "\n- ".data) t21
  let t23 := scanRep (litStep "</li>".data []) t22
  scanRep genericTagStep t23

/-- `EnhancedNoteExporter._html_to_markdown_with_images`, exactly in
source order: CDATA strip, tag rewrites, blank-line collapse
(`\n{4,}` → three newlines), trailing-blank strip (`[ \t]+\n` → `\n`),
HTML entity decoding, and the final whole-document strip. -/
def htmlToMarkdownWithImages (resources : List EAttachmentInfo)
    (o : Option String) : String :=
  if pyTruthy o then
    let t0 := (o.getD "").data
    let t1 := scanRep cdataStep t0
    let t24 := mdTagStages resources t1
    let t25 := scanRep (newlineRunStep 4 "\n\n\n".data) t24
    let t26 := scanRep trailingBlankStep t25
    let t27 := unescape t26
    String.mk (pyStrip t27)
  else ""

/-- The conversion as claimed by the spec's rewrite order: identical
rewrites, but HTML entities are decoded *before* the whitespace cleanup. -/
def htmlToMarkdownSpecOrder (resources : List EAttachmentInfo)
    (o : Option String) : String :=
  if pyTruthy o then
    let t0 := (o.getD "").data
    let t1 := scanRep cdataStep t0
    let t24 := mdTagStages resources t1
    let t25 := unescape t24
    let t26 := scanRep (newlineRunStep 4 "\n\n\n".data) t25
    let t27 := scanRep trailingBlankStep t26
    String.mk (pyStrip t27)
  else ""

/-! ## `IndividualNoteExporter` (`enex_to_individual_notes.py`)

File writes are abstracted by an oracle `W filename contents`; the source
loop has no exception handler, so a failing write propagates through the
`Except` monad. -/

/-- The characters replaced by `re.sub(r'[<>:"/\\|?*]', '_', title)`. -/
def isForbiddenChar (c : Char) : Bool :=
  c = '<' || c = '>' || c = ':' || c = '"' || c = '/' || c = '\\' ||
  c = '|' || c = '?' || c = '*'

/-- Match `\s+`: a maximal whitespace run, replaced by one space. -/
def wsRunStep (l : List Char) : Option (List Char × Nat) :=
  match l with
  | c :: _ =>
    if isPySpace c then Option.some (' ' :: [], spanLen isPySpace l - 1)
    else Option.none
  | [] => Option.none

/-- `re.sub(r'\s+', ' ', s)`. -/
def collapseWs (l : List Char) : List Char := scanRep wsRunStep l

/-- `IndividualNoteExporter.sanitize_filename` (an identical method
exists on `EnhancedNoteExporter`): replace forbidden characters,
collapse whitespace, strip, truncate to 100 and re-strip, default to
`Untitled`. -/
def sanitizeFilename (title : String) : String :=
  let s1 := title.data.map (fun c => if isForbiddenChar c then '_' else c)
  let s2 := pyStrip (collapseWs s1)
  let s3 := if 100 < s2.length then pyStrip (s2.take 100) else s2
  if s3.isEmpty then "Untitled" else String.mk s3

def digitChar (n : Nat) : Char := Char.ofNat (48 + n)

def natDecDigitsF : Nat → Nat → List Char
  | 0, _ => []
  | fuel + 1, n =>
    if n < 10 then [digitChar n]
    else natDecDigitsF fuel (n / 10) ++ [digitChar (n % 10)]

/-- Decimal digit characters of `n` (fuel `n + 1` always suffices). -/
def natDecDigits (n : Nat) : List Char := natDecDigitsF (n + 1) n

/-- Python `f"{i:04d}"`: decimal digits left-padded with zeros to at
least four characters. -/
def pad4 (i : Nat) : List Char :=
  let ds := natDecDigits i
  List.replicate (4 - ds.length) '0' ++ ds

/-- Python `f"{n:,}"`: decimal digits grouped by thousands. -/
def groupRev : List Char → List Char
  | a :: b :: c :: rest =>
    if rest.isEmpty then [a, b, c] else a :: b :: c :: ',' :: groupRev rest
  | l => l

def commaGroup (n : Nat) : String :=
  String.mk ((groupRev ((natDecDigits n).reverse)).reverse)

/-- An f-string rendering of a note-dict value.  Only strings and `None`
ever reach an f-string in the embedded code. -/
def pyValStr : PyVal → String
  | PyVal.str s => s
  | PyVal.none => "None"
  | _ => ""

/-- Python truthiness of a note-dict value. -/
def pyValTruthy : PyVal → Bool
  | PyVal.none => false
  | PyVal.str s => !s.isEmpty
  | PyVal.strList l => !l.isEmpty
  | PyVal.strDict l => !l.isEmpty
  | PyVal.resources l => !l.isEmpty

def dictHasKey (d : NoteDict) (k : String) : Bool :=
  d.any (fun p => p.1 = k)

def dictLookup (d : NoteDict) (k : String) : Option PyVal :=
  (d.find? (fun p => p.1 = k)).map (fun p => p.2)

/-- `note.get(k, default)`. -/
def pyGetD (d : NoteDict) (k : String) (dflt : PyVal) : PyVal :=
  (dictLookup d k).getD dflt

def resDictHasKey (d : ResDict) (k : String) : Bool :=
  d.any (fun p => p.1 = k)

def resDictLookup (d : ResDict) (k : String) : Option ResVal :=
  (d.find? (fun p => p.1 = k)).map (fun p => p.2)

def resValStr : ResVal → String
  | ResVal.str s => s
  | ResVal.none => "None"
  | ResVal.nat n => commaGroup n

/-- One `- filename (mime) - size bytes` line of the attachments
section (notes lacking a `filename` key are skipped). -/
def renderResourceLine (r : ResDict) : String :=
  if resDictHasKey r "filename" then
    "- " ++ resValStr ((resDictLookup r "filename").getD ResVal.none) ++
    (if resDictHasKey r "mime" then
      " (" ++ resValStr ((resDictLookup r "mime").getD ResVal.none) ++ ")"
     else "") ++
    (match resDictLookup r "size" with
     | Option.some (ResVal.nat n) => " - " ++ commaGroup n ++ " bytes"
     | _ => "") ++ "\n"
  else ""

/-- The note-file contents assembled by the write block of
`export_notes_individually` (lines 69–98). -/
def renderNote (note : NoteDict) : String :=
  let title := pyGetD note "title" (PyVal.str "Untitled")
  let header := "# " ++ pyValStr title ++ "\n\n"
  let created :=
    if dictHasKey note "created" then
      "**Created:** " ++ pyValStr ((dictLookup note "created").getD PyVal.none) ++ "  \n"
    else ""
  let modified :=
    if dictHasKey note "modified" then
      "**Modified:** " ++ pyValStr ((dictLookup note "modified").getD PyVal.none) ++ "  \n"
    else ""
  let tagsLine :=
    match pyGetD note "tags" PyVal.none with
    | PyVal.strList l =>
      if l.isEmpty then "" else "**Tags:** " ++ String.intercalate ", " l ++ "  \n"
    | _ => ""
  let contentVal := pyGetD note "content_text" (PyVal.str "")
  let content :=
    if pyValTruthy contentVal then pyValStr contentVal
    else if dictHasKey note "content_html" then
      htmlToText (match (dictLookup note "content_html").getD PyVal.none with
        | PyVal.str s => Option.some s
        | _ => Option.none)
    else pyValStr contentVal
  let resSection :=
    match pyGetD note "resources" PyVal.none with
    | PyVal.resources l =>
      if l.isEmpty then ""
      else "\n\n---\n\n## Attachments\n\n" ++
        String.join (l.map renderResourceLine)
    | _ => ""
  header ++ created ++ modified ++ tagsLine ++ "\n---\n\n" ++ content ++ resSection

/-- `f"{i:04d}_{safe_title}.md"` for a note dict.  A `None` title (a
`<title/>` element with no text) would raise `TypeError` inside
`sanitize_filename`'s `re.sub` in the source; this total model renders
it as `None` instead, so theorems about the export loop restrict their
quantification to notes whose title value is a string. -/
def exportFilename (i : Nat) (note : NoteDict) : String :=
  String.mk (pad4 i) ++ "_" ++
    sanitizeFilename (pyValStr (pyGetD note "title" (PyVal.str "Untitled"))) ++ ".md"

/-- The filename for a plain title string (the composition the filename
safety claim quantifies over). -/
def noteFilename (i : Nat) (title : String) : String :=
  String.mk (pad4 i) ++ "_" ++ sanitizeFilename title ++ ".md"

/-- The per-note loop of `export_notes_individually` (lines 61–98):
build the filename, write the file, move on.  There is no exception
handler, so a failed write short-circuits the whole loop. -/
def exportNotesLoop {ε : Type} (W : String → String → Except ε Unit) :
    List NoteDict → Nat → Except ε (List String)
  | [], _ => Except.ok []
  | note :: rest, i =>
    let fname := exportFilename i note
    match W fname (renderNote note) with
    | Except.error e => Except.error e
    | Except.ok _ =>
      match exportNotesLoop W rest (i + 1) with
      | Except.error e => Except.error e
      | Except.ok l => Except.ok (fname :: l)

/-! ## Spec-side reference definition for filename resolution

Written from the spec's own wording (clean, truncate keeping the
extension, then prefix), to be compared against `resolveFilename`. -/

/-- The spec's description of declared-filename resolution: strip
newlines/carriage returns and surrounding whitespace; if longer than 50,
truncate the stem (split on the last dot) to 40 keeping the extension,
else truncate the whole name to 50; prefix with `content_hash + "_"`. -/
def specResolveDeclared (contentHash : String) (f : String) : String :=
  let cleaned := pyStrip (removeChar '\r' (removeChar '\n' f.data))
  let truncated :=
    if 50 < cleaned.length then
      match rsplitDot cleaned with
      | Option.some (st, ex) => st.take 40 ++ '.' :: ex
      | Option.none => cleaned.take 50
    else cleaned
  contentHash ++ "_" ++ String.mk truncated

/-! ## Concrete fixtures used by witnesses and counterexamples -/

/-- A two-note ENEX root: one note with a title, one bare note, and an
unrelated sibling element that `findall('note')` must ignore. -/
def wRoot : XmlElem :=
  XmlElem.mk "en-export" [] Option.none
    [XmlElem.mk "note" [] Option.none
       [XmlElem.mk "title" [] (Option.some "A") []],
     XmlElem.mk "skipme" [] Option.none [],
     XmlElem.mk "note" [] Option.none []]

def wB64len : String → Option Nat := fun _ => Option.some 3

/-- The parse of `wRoot`: both notes, in document order. -/
def wNotes : List NoteDict :=
  [[("title", PyVal.str "A"), ("content_html", PyVal.str ""),
    ("content_text", PyVal.str ""), ("tags", PyVal.strList []),
    ("resources", PyVal.resources [])],
   [("title", PyVal.str "Untitled"), ("content_html", PyVal.str ""),
    ("content_text", PyVal.str ""), ("tags", PyVal.strList []),
    ("resources", PyVal.resources [])]]

/-- A base64 decoder fixture: decodes `AQID` to the bytes 1, 2, 3. -/
def wB64 : String → Option (List Nat) :=
  fun s => if s = "AQID" then Option.some [1, 2, 3] else Option.none

/-- A resource element with base64 data and no declared filename. -/
def wResNoName : XmlElem :=
  XmlElem.mk "resource" [] Option.none
    [XmlElem.mk "data" [("encoding", "base64"), ("hash", "abc123")]
       (Option.some "AQID") [],
     XmlElem.mk "mime" [] (Option.some "image/png") []]

/-- The data child of `wResNoName`. -/
def wResNoNameData : XmlElem :=
  XmlElem.mk "data" [("encoding", "base64"), ("hash", "abc123")]
    (Option.some "AQID") []

/-- A resource with the same payload but a declared filename. -/
def wResNamed : XmlElem :=
  XmlElem.mk "resource" [] Option.none
    [XmlElem.mk "data" [("encoding", "base64"), ("hash", "abc123")]
       (Option.some "AQID") [],
     XmlElem.mk "mime" [] (Option.some "image/png") [],
     XmlElem.mk "resource-attributes" [] Option.none
       [XmlElem.mk "file-name" [] (Option.some "photo.png") []]]

/-- A resource with an unknown MIME type and no declared filename. -/
def wResOddMime : XmlElem :=
  XmlElem.mk "resource" [] Option.none
    [XmlElem.mk "data" [("encoding", "base64")] (Option.some "AQID") [],
     XmlElem.mk "mime" [] (Option.some "application/x-whatever") []]

def wResOddMimeData : XmlElem :=
  XmlElem.mk "data" [("encoding", "base64")] (Option.some "AQID") []

/-- The spec's scenario of a resource with `encoding="plain"`. -/
def wResPlain : XmlElem :=
  XmlElem.mk "resource" [] Option.none
    [XmlElem.mk "data" [("encoding", "plain")] (Option.some "AQID") []]

def wResPlainData : XmlElem :=
  XmlElem.mk "data" [("encoding", "plain")] (Option.some "AQID") []

/-- The image resource dict matching the `<en-media hash="abc123"/>`
placeholder: extracted from a resource that declared no filename, so
`original_filename` is `None`. -/
def cImg : EAttachmentInfo :=
  { hash := "5289df73"
    resource_hash := Option.some "abc123"
    filename := "5289df73.png"
    original_filename := Option.none
    mime_type := Option.some "image/png"
    size := 3
    file_path := "out/attachments/5289df73.png"
    relative_path := "attachments/5289df73.png"
    note_index := 1
    is_image := true }

/-- A write oracle that fails on the first note's file. -/
def wFailW : String → String → Except Nat Unit :=
  fun fn _ => if fn = "0001_A.md" then Except.error 7 else Except.ok ()

def wNoteA : NoteDict := [("title", PyVal.str "A")]

def wNoteB : NoteDict := [("title", PyVal.str "B")]

/-- The `attachment_info` record produced by a successful
`_extract_resource` run that decoded `bs`. -/
def successInfo (dir : String) (i : Nat) (e : XmlElem) (bs : List Nat) :
    AttachmentInfo :=
  { hash := String.mk ((MD5.hexdigest bs).take 8)
    filename := resolveFilename (String.mk ((MD5.hexdigest bs).take 8))
      (resourceMime e) (declaredFilename e)
    original_filename := declaredFilename e
    mime_type := resourceMime e
    size := bs.length
    file_path := dir ++ "/" ++ resolveFilename
      (String.mk ((MD5.hexdigest bs).take 8)) (resourceMime e)
      (declaredFilename e)
    note_index := i }

/-- `AttachmentExtractor._extract_resource` with the file write made
fallible through an oracle `V path bytes`: the `open`/`write` at lines
123–126 of the source has no exception handler, so a raised write error
propagates out of the function.  Skip paths return `ok none` without
attempting any write; the success path performs exactly one write and,
when it succeeds, returns the same `attachment_info` record as
`extractResource` (see `extractResourceW_total`). -/
def extractResourceW {ε : Type} (b64 : String → Option (List Nat))
    (V : String → List Nat → Except ε Unit)
    (attachmentsDir : String) (noteIdx : Nat) (e : XmlElem) :
    Except ε (Option AttachmentInfo) :=
  match e.findChild "data" with
  | Option.none => Except.ok Option.none
  | Option.some de =>
    if pyTruthy de.text = false then Except.ok Option.none
    else if (de.attrGet "encoding").getD "" ≠ "base64" then Except.ok Option.none
    else
      match b64 (de.text.getD "") with
      | Option.none => Except.ok Option.none
      | Option.some bytes =>
        let dataHash := String.mk ((MD5.hexdigest bytes).take 8)
        let filename := resolveFilename dataHash (resourceMime e) (declaredFilename e)
        let path := attachmentsDir ++ "/" ++ filename
        match V path bytes with
        | Except.error err => Except.error err
        | Except.ok _ =>
          Except.ok (Option.some (successInfo attachmentsDir noteIdx e bytes))

/-- The per-note resource loop of `extract_attachments_from_enex` with
fallible writes: a raised write error aborts the loop — the caller has
no handler either. -/
def extractNoteResourcesW {ε : Type} (b64 : String → Option (List Nat))
    (V : String → List Nat → Except ε Unit)
    (attachmentsDir : String) (noteIdx : Nat) :
    List XmlElem → Except ε (List AttachmentInfo)
  | [] => Except.ok []
  | r :: rest =>
    match extractResourceW b64 V attachmentsDir noteIdx r with
    | Except.error e => Except.error e
    | Except.ok o =>
      match extractNoteResourcesW b64 V attachmentsDir noteIdx rest with
      | Except.error e => Except.error e
      | Except.ok l =>
        Except.ok (match o with
          | Option.some info => info :: l
          | Option.none => l)

/-- A write oracle for attachment bytes that always fails. -/
def wFailV : String → List Nat → Except Nat Unit := fun _ _ => Except.error 9

/-! ## Helper lemmas -/

theorem rsplitDot_append (l a b : List Char) :
    rsplitDot l = Option.some (a, b) → l = a ++ '.' :: b := by
  induction l generalizing a b with
  | nil => intro h; simp [rsplitDot] at h
  | cons c cs ih =>
    intro h
    rw [rsplitDot] at h
    cases hcs : rsplitDot cs with
    | some p =>
      obtain ⟨a0, b0⟩ := p
      rw [hcs] at h
      injection h with h'
      injection h' with hx hy
      subst hx; subst hy
      simp [ih a0 b0 hcs]
    | none =>
      rw [hcs] at h
      by_cases hc : c = '.'
      · rw [if_pos hc] at h
        injection h with h'
        injection h' with hx hy
        subst hx; subst hy
        simp [hc]
      · rw [if_neg hc] at h
        exact absurd h (by simp)

theorem mk_append (a b : List Char) :
    String.mk (a ++ b) = String.mk a ++ String.mk b := rfl

theorem length_mk (l : List Char) : (String.mk l).length = l.length := rfl

theorem pyStrip_length_le (l : List Char) : (pyStrip l).length ≤ l.length := by
  unfold pyStrip
  rw [List.length_reverse]
  calc ((l.dropWhile isPySpace).reverse.dropWhile isPySpace).length
      ≤ (l.dropWhile isPySpace).reverse.length :=
        (List.dropWhile_sublist _).length_le
    _ = (l.dropWhile isPySpace).length := List.length_reverse _
    _ ≤ l.length := (List.dropWhile_sublist _).length_le

theorem mem_pyStrip {c : Char} {l : List Char} (h : c ∈ pyStrip l) : c ∈ l := by
  unfold pyStrip at h
  rw [List.mem_reverse] at h
  have h2 := (List.dropWhile_sublist _).subset h
  rw [List.mem_reverse] at h2
  exact (List.dropWhile_sublist _).subset h2

theorem scanRepF_ws_length (fuel : Nat) :
    ∀ l : List Char, (scanRepF wsRunStep fuel l).length ≤ l.length := by
  induction fuel with
  | zero => intro l; cases l <;> simp [scanRepF]
  | succ f ih =>
    intro l
    cases l with
    | nil => simp [scanRepF]
    | cons c cs =>
      by_cases hc : isPySpace c
      · have hstep : wsRunStep (c :: cs) =
            Option.some (' ' :: [], spanLen isPySpace (c :: cs) - 1) := by
          simp [wsRunStep, hc]
        simp only [scanRepF, hstep, List.cons_append, List.nil_append,
          List.length_cons]
        have hlen := ih (cs.drop (spanLen isPySpace (c :: cs) - 1))
        have hdrop : (cs.drop (spanLen isPySpace (c :: cs) - 1)).length ≤ cs.length := by
          rw [List.length_drop]; omega
        omega
      · have hstep : wsRunStep (c :: cs) = Option.none := by
          simp [wsRunStep, hc]
        simp only [scanRepF, hstep, List.length_cons]
        have := ih cs
        omega

theorem scanRepF_ws_mem (fuel : Nat) :
    ∀ (l : List Char) (c : Char),
      c ∈ scanRepF wsRunStep fuel l → c = ' ' ∨ c ∈ l := by
  induction fuel with
  | zero =>
    intro l c h
    cases l with
    | nil => simp [scanRepF] at h
    | cons x cs => exact Or.inr (by simpa [scanRepF] using h)
  | succ f ih =>
    intro l c h
    cases l with
    | nil => simp [scanRepF] at h
    | cons x cs =>
      by_cases hx : isPySpace x
      · have hstep : wsRunStep (x :: cs) =
            Option.some (' ' :: [], spanLen isPySpace (x :: cs) - 1) := by
          simp [wsRunStep, hx]
        simp only [scanRepF, hstep, List.mem_append, List.mem_cons,
          List.not_mem_nil, or_false] at h
        rcases h with h | h
        · exact Or.inl h
        · rcases ih _ _ h with h1 | h1
          · exact Or.inl h1
          · exact Or.inr (List.mem_cons_of_mem _ (List.mem_of_mem_drop h1))
      · have hstep : wsRunStep (x :: cs) = Option.none := by
          simp [wsRunStep, hx]
        simp only [scanRepF, hstep, List.mem_cons] at h
        rcases h with h | h
        · exact Or.inr (by simp [h])
        · rcases ih _ _ h with h1 | h1
          · exact Or.inl h1
          · exact Or.inr (List.mem_cons_of_mem _ h1)

theorem collapseWs_length_le (l : List Char) :
    (collapseWs l).length ≤ l.length :=
  scanRepF_ws_length l.length l

theorem mem_collapseWs {c : Char} {l : List Char} (h : c ∈ collapseWs l) :
    c = ' ' ∨ c ∈ l :=
  scanRepF_ws_mem l.length l c h

theorem data_mk (l : List Char) : (String.mk l).data = l := rfl

theorem scanRep_nil (step : List Char → Option (List Char × Nat)) :
    scanRep step [] = [] := rfl

theorem sanitizeFilename_length_le (t : String) :
    (sanitizeFilename t).length ≤ 100 := by
  simp only [sanitizeFilename]
  split
  case isTrue h =>
    split
    · decide
    · rw [length_mk]
      refine le_trans (pyStrip_length_le _) ?_
      rw [List.length_take]
      omega
  case isFalse h =>
    split
    · decide
    · rw [length_mk]
      omega

theorem sanitizeFilename_no_forbidden (t : String) :
    ∀ c ∈ (sanitizeFilename t).data, isForbiddenChar c = false := by
  intro c hc
  have hmem_s2 : ∀ x, x ∈ pyStrip (collapseWs (t.data.map
      (fun c => if isForbiddenChar c then '_' else c))) →
      isForbiddenChar x = false := by
    intro x hx
    rcases mem_collapseWs (mem_pyStrip hx) with h | h
    · subst h; decide
    · rw [List.mem_map] at h
      obtain ⟨y, _, hy⟩ := h
      by_cases hf : isForbiddenChar y
      · rw [if_pos hf] at hy; subst hy; decide
      · rw [if_neg hf] at hy; subst hy; simpa using hf
  have hall : ∀ x ∈ "Untitled".data, isForbiddenChar x = false := by decide
  simp only [sanitizeFilename] at hc
  revert hc
  split
  case isTrue h =>
    split
    · intro hc
      exact hall c hc
    · rw [data_mk]
      intro hc
      exact hmem_s2 c (List.mem_of_mem_take (mem_pyStrip hc))
  case isFalse h =>
    split
    · intro hc
      exact hall c hc
    · rw [data_mk]
      intro hc
      exact hmem_s2 c hc

theorem natDecDigitsF_length (fuel : Nat) :
    ∀ (k n : Nat), n < 10 ^ k → 1 ≤ k → n + 1 ≤ fuel →
      (natDecDigitsF fuel n).length ≤ k := by
  induction fuel with
  | zero => intro k n _ _ h; omega
  | succ f ih =>
    intro k n hk h1 hf
    rw [natDecDigitsF]
    by_cases h10 : n < 10
    · rw [if_pos h10]
      simpa using h1
    · rw [if_neg h10]
      rw [List.length_append]
      have hk2 : 2 ≤ k := by
        by_contra hlt
        have : k = 1 := by omega
        subst this
        simp at hk
        omega
      have hdiv : n / 10 < 10 ^ (k - 1) := by
        rw [Nat.div_lt_iff_lt_mul (by omega : 0 < 10)]
        calc n < 10 ^ k := hk
          _ = 10 ^ (k - 1) * 10 := by
            rw [← pow_succ]
            congr 1
            omega
      have hfuel : n / 10 + 1 ≤ f := by
        have := Nat.div_lt_self (by omega : 0 < n) (by omega : 1 < 10)
        omega
      have := ih (k - 1) (n / 10) hdiv (by omega) hfuel
      simp only [List.length_cons, List.length_nil]
      omega

theorem natDecDigits_length_le_4 (n : Nat) (h : n ≤ 9999) :
    (natDecDigits n).length ≤ 4 :=
  natDecDigitsF_length (n + 1) 4 n (by omega) (by omega) (le_refl _)

theorem pad4_length (n : Nat) (h : n ≤ 9999) : (pad4 n).length = 4 := by
  unfold pad4
  rw [List.length_append, List.length_replicate]
  have := natDecDigits_length_le_4 n h
  omega

theorem natDecDigitsF_chars (fuel : Nat) :
    ∀ (n : Nat) (c : Char), c ∈ natDecDigitsF fuel n →
      ∃ d, d < 10 ∧ c = digitChar d := by
  induction fuel with
  | zero => intro n c h; simp [natDecDigitsF] at h
  | succ f ih =>
    intro n c h
    rw [natDecDigitsF] at h
    by_cases h10 : n < 10
    · rw [if_pos h10] at h
      simp at h
      exact ⟨n, h10, h⟩
    · rw [if_neg h10] at h
      rw [List.mem_append] at h
      rcases h with h | h
      · exact ih _ _ h
      · simp at h
        exact ⟨n % 10, Nat.mod_lt _ (by omega), h⟩

theorem digitChar_not_forbidden {d : Nat} (h : d < 10) :
    isForbiddenChar (digitChar d) = false := by
  interval_cases d <;> decide

theorem pad4_no_forbidden (n : Nat) :
    ∀ c ∈ pad4 n, isForbiddenChar c = false := by
  intro c hc
  unfold pad4 at hc
  rw [List.mem_append] at hc
  rcases hc with hc | hc
  · rw [List.eq_of_mem_replicate hc]
    decide
  · obtain ⟨d, hd, rfl⟩ := natDecDigitsF_chars _ _ _ hc
    exact digitChar_not_forbidden hd

/-- `_parse_note` always stores the `title` key first, so a parsed note
dict is never empty (and is therefore never dropped by the `if note:`
truthiness filter). -/
theorem parseNote_ne_nil (b64len : String → Option Nat) (e : XmlElem)
    (d : NoteDict) (h : parseNote b64len e = Option.some d) : d ≠ [] := by
  unfold parseNote at h
  cases hr : parseResourceList b64len (e.findAll "resource") with
  | none => rw [hr] at h; simp at h
  | some rs =>
    rw [hr] at h
    simp only [Option.bind_eq_bind, Option.some_bind, Option.pure_def,
      Option.some.injEq] at h
    rw [← h]
    simp

/-- The note loop of `parse_enex_file` is an order-preserving traversal:
when it succeeds it returns exactly the parse of each `<note>` element,
none dropped. -/
theorem parseNoteList_spec (b64len : String → Option Nat) :
    ∀ (xs : List XmlElem) (l : List NoteDict),
      parseNoteList b64len xs = Option.some l →
      xs.mapM (parseNote b64len) = Option.some l ∧ l.length = xs.length := by
  intro xs
  induction xs with
  | nil =>
    intro l h
    simp only [parseNoteList, Option.some.injEq] at h
    subst h
    exact ⟨rfl, rfl⟩
  | cons e es ih =>
    intro l h
    simp only [parseNoteList, Option.bind_eq_bind, Option.bind_eq_some,
      Option.pure_def, Option.some.injEq] at h
    obtain ⟨n, hn, rest, hrest, hl⟩ := h
    have hne := parseNote_ne_nil b64len e n hn
    have hempty : n.isEmpty = false := by
      cases n with
      | nil => exact absurd rfl hne
      | cons a as => rfl
    rw [hempty] at hl
    simp only [Bool.false_eq_true, if_false] at hl
    obtain ⟨hmap, hlen⟩ := ih rest hrest
    constructor
    · rw [← hl, List.mapM_cons, hn]
      simp only [Option.bind_eq_bind, Option.some_bind, hmap,
        Option.pure_def, Option.some.injEq]
    · rw [← hl]
      simp [hlen]

/-- Successful extraction in `_extract_resource`: present nonempty data,
base64 encoding, decodable payload. -/
theorem extractResource_eq (b64 : String → Option (List Nat)) (dir : String)
    (i : Nat) (e d : XmlElem) (t : String) (bs : List Nat)
    (hd : e.findChild "data" = Option.some d)
    (ht : d.text = Option.some t) (htne : t.isEmpty = false)
    (henc : (d.attrGet "encoding").getD "" = "base64")
    (hb : b64 t = Option.some bs) :
    extractResource b64 dir i e =
      (Option.some (successInfo dir i e bs),
       [⟨(successInfo dir i e bs).file_path, bs⟩]) := by
  have h1 : pyTruthy (Option.some t) = true := by simp [pyTruthy, htne]
  simp only [extractResource, hd, ht, h1, Bool.true_eq_false, if_false, henc,
    ne_eq, not_true_eq_false, Option.getD_some, hb, successInfo]

/-- A MIME type outside the table falls back to `.bin`. -/
theorem getExtensionFromMime_not_mem (m : String)
    (hm : m ∉ mimeToExt.map Prod.fst) :
    getExtensionFromMime (Option.some m) = ".bin" := by
  have hfind : mimeToExt.find? (fun p => p.1 = m) = Option.none := by
    rw [List.find?_eq_none]
    intro x hx
    simp only [decide_eq_true_eq]
    intro heq
    exact hm (heq ▸ List.mem_map_of_mem Prod.fst hx)
  simp only [getExtensionFromMime, hfind]
  rfl

/-- The only error `extractResourceW` can produce is a failing write:
an error result exhibits a write call that raised it. -/
theorem extractResourceW_error {ε : Type} (b64 : String → Option (List Nat))
    (V : String → List Nat → Except ε Unit) (dir : String) (i : Nat)
    (r : XmlElem) (e : ε)
    (h : extractResourceW b64 V dir i r = Except.error e) :
    ∃ path bytes, V path bytes = Except.error e := by
  unfold extractResourceW at h
  split at h
  · exact absurd h (by simp)
  · split at h
    · exact absurd h (by simp)
    · split at h
      · exact absurd h (by simp)
      · split at h
        · exact absurd h (by simp)
        · simp only [] at h
          split at h
          · injection h with he
            subst he
            exact ⟨_, _, by assumption⟩
          · exact absurd h (by simp)

/-- When every write succeeds, the fallible embedding agrees with the
effect-as-data embedding `extractResource`. -/
theorem extractResourceW_total {ε : Type} (b64 : String → Option (List Nat))
    (V : String → List Nat → Except ε Unit) (dir : String) (i : Nat)
    (e : XmlElem) (hV : ∀ p b, V p b = Except.ok ()) :
    extractResourceW b64 V dir i e =
      Except.ok (extractResource b64 dir i e).1 := by
  unfold extractResourceW extractResource
  cases hde : e.findChild "data" with
  | none => rfl
  | some de =>
    by_cases h1 : pyTruthy de.text = false
    · simp [h1]
    · by_cases h2 : (de.attrGet "encoding").getD "" ≠ "base64"
      · simp [h1, h2]
      · cases hb : b64 (de.text.getD "") with
        | none => simp [h1, h2, hb]
        | some bytes => simp [h1, h2, hb, hV, successInfo]

/-! ## Claims -/

/-- C1: for every ENEX document whose parse succeeds,
`ENEXParser.parse_enex_file` returns exactly one note record per
`<note>` element of the root, in document order — the result is the
elementwise parse of the `<note>` children, so the post-parse
truthiness filter drops nothing. -/
theorem C1_parse_returns_one_record_per_note
    (b64len : String → Option Nat) (root : XmlElem) (l : List NoteDict)
    (h : parseEnexFile b64len root = Option.some l) :
    (root.findAll "note").mapM (parseNote b64len) = Option.some l ∧
    l.length = (root.findAll "note").length :=
  parseNoteList_spec b64len (root.findAll "note") l h

set_option maxHeartbeats 2000000 in
/-- C1 witness: a concrete two-note document parses to exactly its two
note records, in order. -/
theorem C1_witness :
    parseEnexFile wB64len wRoot = Option.some wNotes ∧
    (wRoot.findAll "note").mapM (parseNote wB64len) = Option.some wNotes ∧
    wNotes.length = (wRoot.findAll "note").length := by
  have h : parseEnexFile wB64len wRoot = Option.some wNotes := by decide
  exact ⟨h, (C1_parse_returns_one_record_per_note wB64len wRoot wNotes h).1,
    (C1_parse_returns_one_record_per_note wB64len wRoot wNotes h).2⟩

/-- C10: in the plain-text conversion path, HTML entities are decoded
before the remaining-tag strip, so the escaped tag literal
`&lt;b&gt;bold&lt;/b&gt;` decodes to `<b>bold</b>` and is then removed
as if it were real markup: the output is `bold`, with none of the
literal angle-bracket or entity characters surviving. -/
theorem C10_escaped_tags_stripped :
    htmlToText (Option.some "<en-note>&lt;b&gt;bold&lt;/b&gt;</en-note>") = "bold" ∧
    '<' ∉ (htmlToText (Option.some "<en-note>&lt;b&gt;bold&lt;/b&gt;</en-note>")).data ∧
    '&' ∉ (htmlToText (Option.some "<en-note>&lt;b&gt;bold&lt;/b&gt;</en-note>")).data := by
  decide

/-- C3 at its failing input: a matched image resource that declared no
filename carries `original_filename = None`, and the f-string renders
the alt text as the literal `None` — not the claimed `Image` default,
which is dead code because the dict always has the key.  The no-match
case degrades to `[Attachment]` as claimed. -/
theorem C3_media_replacement_at_failing_input :
    htmlToMarkdownWithImages [cImg]
      (Option.some "<en-note><en-media hash=\"abc123\"/></en-note>") =
      "![None](attachments/5289df73.png)" ∧
    htmlToMarkdownWithImages [cImg]
      (Option.some "<en-note><en-media hash=\"zzz\"/></en-note>") =
      "[Attachment]" := by
  decide

/-- C5 counterexample: the MIME-to-extension table has fifteen entries,
not fourteen as the claim states. -/
theorem C5_counterexample_table_size :
    mimeToExt.length = 15 ∧ mimeToExt.length ≠ 14 := by decide

/-- C6 counterexample: on a body of entity-encoded newlines the code
(cleanup before decoding) keeps all five newlines, while the claimed
order (decoding before cleanup) would collapse them — the two orders
disagree, so entity decoding is not applied before the whitespace
cleanup. -/
theorem C6_counterexample_decode_order :
    htmlToMarkdownWithImages [] (Option.some "a&#10;&#10;&#10;&#10;&#10;b") =
      "a\n\n\n\n\nb" ∧
    htmlToMarkdownSpecOrder [] (Option.some "a&#10;&#10;&#10;&#10;&#10;b") =
      "a\n\n\nb" ∧
    htmlToMarkdownWithImages [] (Option.some "a&#10;&#10;&#10;&#10;&#10;b") ≠
      htmlToMarkdownSpecOrder [] (Option.some "a&#10;&#10;&#10;&#10;&#10;b") := by
  decide

/-- C6 amended: the conversion applies the blank-line collapse and the
trailing-blank strip first, decodes HTML entities only after them, and
trims the whole document last. -/
theorem C6_amended_decode_after_cleanup
    (resources : List EAttachmentInfo) (s : String) :
    htmlToMarkdownWithImages resources (Option.some s) =
      String.mk (pyStrip (unescape (scanRep trailingBlankStep
        (scanRep (newlineRunStep 4 "\n\n\n".data)
          (mdTagStages resources (scanRep cdataStep s.data)))))) := by
  by_cases hs : s.isEmpty
  · have hempty : s = "" := (String.isEmpty_iff s).mp hs
    subst hempty
    have hdata : "".data = ([] : List Char) := rfl
    rw [hdata, scanRep_nil]
    have hmd : mdTagStages resources [] = [] := by
      simp only [mdTagStages, scanRep_nil]
    rw [hmd, scanRep_nil, scanRep_nil]
    have hu : unescape ([] : List Char) = [] := rfl
    have hp : pyStrip ([] : List Char) = [] := rfl
    rw [hu, hp]
    rfl
  · have hf : s.isEmpty = false := by
      cases h : s.isEmpty
      · rfl
      · exact absurd h hs
    simp only [htmlToMarkdownWithImages, pyTruthy, hf, Bool.not_false,
      if_true, Option.getD_some]

/-- C7 counterexample: a 100-character title produces the filename
`0001_` + title + `.md` of length 108, exceeding the claimed bound of
105 — the claim ignores the three characters of the `.md` extension. -/
theorem C7_counterexample_length_108 :
    (noteFilename 1 (String.mk (List.replicate 100 'a'))).length = 108 ∧
    ¬ (noteFilename 1 (String.mk (List.replicate 100 'a'))).length ≤ 105 := by
  decide

/-- C7 amended: for any title and sequence number up to 9999, the
generated filename contains no forbidden character and its length is at
most 108 (5 for the sequence prefix, 100 for the sanitized title, 3 for
the `.md` extension). -/
theorem C7_amended_filename_safety (title : String) (i : Nat)
    (hi : i ≤ 9999) :
    (∀ c ∈ (noteFilename i title).data, isForbiddenChar c = false) ∧
    (noteFilename i title).length ≤ 108 := by
  constructor
  · intro c hc
    unfold noteFilename at hc
    simp only [String.data_append, data_mk, List.mem_append] at hc
    rcases hc with ((hc | hc) | hc) | hc
    · exact pad4_no_forbidden i c hc
    · have : ∀ x ∈ "_".data, isForbiddenChar x = false := by decide
      exact this c hc
    · exact sanitizeFilename_no_forbidden title c hc
    · have : ∀ x ∈ ".md".data, isForbiddenChar x = false := by decide
      exact this c hc
  · unfold noteFilename
    rw [String.length_append, String.length_append, String.length_append,
      length_mk, pad4_length i hi]
    have hs := sanitizeFilename_length_le title
    have h1 : "_".length = 1 := rfl
    have h2 : ".md".length = 3 := rfl
    omega

/-- C7 witness: the amended safety bound at a concrete title and index. -/
theorem C7_witness :
    (∀ c ∈ (noteFilename 1 "a:b").data, isForbiddenChar c = false) ∧
    (noteFilename 1 "a:b").length ≤ 108 :=
  C7_amended_filename_safety "a:b" 1 (by decide)

/-- C2: for resources with valid base64 data, the assigned content hash
is the first eight hex characters of the MD5 digest of the decoded
bytes; hence two resources with identical decoded bytes always get the
same hash, whatever their declared filenames, MIME types, or note
indices. -/
theorem C2_content_hash_is_md5_prefix
    (b64 : String → Option (List Nat)) (dir₁ dir₂ : String) (i₁ i₂ : Nat)
    (e₁ e₂ d₁ d₂ : XmlElem) (t₁ t₂ : String) (bs₁ bs₂ : List Nat)
    (hd₁ : e₁.findChild "data" = Option.some d₁)
    (ht₁ : d₁.text = Option.some t₁) (htne₁ : t₁.isEmpty = false)
    (henc₁ : (d₁.attrGet "encoding").getD "" = "base64")
    (hb₁ : b64 t₁ = Option.some bs₁)
    (hd₂ : e₂.findChild "data" = Option.some d₂)
    (ht₂ : d₂.text = Option.some t₂) (htne₂ : t₂.isEmpty = false)
    (henc₂ : (d₂.attrGet "encoding").getD "" = "base64")
    (hb₂ : b64 t₂ = Option.some bs₂) :
    ∃ info₁ info₂ : AttachmentInfo,
      (extractResource b64 dir₁ i₁ e₁).1 = Option.some info₁ ∧
      (extractResource b64 dir₂ i₂ e₂).1 = Option.some info₂ ∧
      info₁.hash = String.mk ((MD5.hexdigest bs₁).take 8) ∧
      info₂.hash = String.mk ((MD5.hexdigest bs₂).take 8) ∧
      (bs₁ = bs₂ → info₁.hash = info₂.hash) := by
  have h1 := extractResource_eq b64 dir₁ i₁ e₁ d₁ t₁ bs₁ hd₁ ht₁ htne₁ henc₁ hb₁
  have h2 := extractResource_eq b64 dir₂ i₂ e₂ d₂ t₂ bs₂ hd₂ ht₂ htne₂ henc₂ hb₂
  exact ⟨successInfo dir₁ i₁ e₁ bs₁, successInfo dir₂ i₂ e₂ bs₂,
    by rw [h1], by rw [h2], rfl, rfl, fun hbs => by rw [hbs]; rfl⟩

/-- C2 witness: two concrete resources with the same three-byte payload
but different declared filenames both receive the hash `5289df73`. -/
theorem C2_witness :
    ∃ info₁ info₂ : AttachmentInfo,
      (extractResource wB64 "out" 1 wResNoName).1 = Option.some info₁ ∧
      (extractResource wB64 "out" 2 wResNamed).1 = Option.some info₂ ∧
      info₁.hash = String.mk ((MD5.hexdigest [1, 2, 3]).take 8) ∧
      info₂.hash = String.mk ((MD5.hexdigest [1, 2, 3]).take 8) ∧
      ([1, 2, 3] = ([1, 2, 3] : List Nat) → info₁.hash = info₂.hash) :=
  C2_content_hash_is_md5_prefix wB64 "out" "out" 1 2 wResNoName wResNamed
    wResNoNameData wResNoNameData "AQID" "AQID" [1, 2, 3] [1, 2, 3]
    (by rfl) (by rfl) (by rfl) (by rfl) (by decide)
    (by rfl) (by rfl) (by rfl) (by rfl) (by decide)

/-- C4: for a truthy declared filename, the code's resolution (clean,
truncate, second `rsplit` and reassemble with the hash prefix) agrees
with the spec's description: clean, truncate keeping the extension, and
prefix the whole result with `content_hash + "_"`. -/
theorem C4_declared_filename_resolution (contentHash : String)
    (mime : Option String) (f : String)
    (hf : pyTruthy (Option.some f) = true) :
    resolveFilename contentHash mime (Option.some f) =
      specResolveDeclared contentHash f := by
  simp only [resolveFilename, specResolveDeclared, hf, Bool.true_eq_false,
    if_false, Option.getD_some]
  cases hsplit : rsplitDot (if 50 <
      (pyStrip (removeChar '\r' (removeChar '\n' f.data))).length then
      match rsplitDot (pyStrip (removeChar '\r' (removeChar '\n' f.data))) with
      | Option.some (st, ex) => st.take 40 ++ '.' :: ex
      | Option.none => (pyStrip (removeChar '\r' (removeChar '\n' f.data))).take 50
    else pyStrip (removeChar '\r' (removeChar '\n' f.data))) with
  | none => rfl
  | some p =>
    obtain ⟨st, ex⟩ := p
    have hjoin := rsplitDot_append _ st ex hsplit
    rw [hjoin]
    have hdot : ".".data = ['.'] := rfl
    apply String.ext
    simp [String.data_append, data_mk, hdot, List.append_assoc]

/-- C4 witness: the resolution of a concrete declared filename agrees
with the spec's description. -/
theorem C4_witness :
    resolveFilename "aabbccdd" (Option.some "image/png")
        (Option.some "photo.png") =
      specResolveDeclared "aabbccdd" "photo.png" :=
  C4_declared_filename_resolution "aabbccdd" (Option.some "image/png")
    "photo.png" (by decide)

/-- C5 amended: a resource without a declared filename resolves to
`content_hash ++ extension` with the extension looked up in the
MIME-to-extension table — which has fifteen entries, not fourteen —
and every MIME type outside the table maps to `.bin`. -/
theorem C5_amended_extension_table (b64 : String → Option (List Nat))
    (dir : String) (i : Nat) (e d : XmlElem) (t : String) (bs : List Nat)
    (hd : e.findChild "data" = Option.some d)
    (ht : d.text = Option.some t) (htne : t.isEmpty = false)
    (henc : (d.attrGet "encoding").getD "" = "base64")
    (hb : b64 t = Option.some bs)
    (hnofn : pyTruthy (declaredFilename e) = false) :
    ∃ info : AttachmentInfo,
      (extractResource b64 dir i e).1 = Option.some info ∧
      info.filename = info.hash ++ getExtensionFromMime (resourceMime e) ∧
      mimeToExt.length = 15 ∧
      ∀ m : String, m ∉ mimeToExt.map Prod.fst →
        getExtensionFromMime (Option.some m) = ".bin" := by
  have h1 := extractResource_eq b64 dir i e d t bs hd ht htne henc hb
  refine ⟨successInfo dir i e bs, by rw [h1], ?_, by decide, ?_⟩
  · show resolveFilename (String.mk ((MD5.hexdigest bs).take 8))
      (resourceMime e) (declaredFilename e) = _
    rw [resolveFilename, if_pos hnofn]
    rfl
  · intro m hm
    exact getExtensionFromMime_not_mem m hm

/-- C5 witness: the amended statement at a concrete resource with an
unknown MIME type and no declared filename. -/
theorem C5_witness :
    ∃ info : AttachmentInfo,
      (extractResource wB64 "out" 1 wResOddMime).1 = Option.some info ∧
      info.filename = info.hash ++ getExtensionFromMime (resourceMime wResOddMime) ∧
      mimeToExt.length = 15 ∧
      ∀ m : String, m ∉ mimeToExt.map Prod.fst →
        getExtensionFromMime (Option.some m) = ".bin" :=
  C5_amended_extension_table wB64 "out" 1 wResOddMime wResOddMimeData
    "AQID" [1, 2, 3] (by rfl) (by rfl) (by rfl) (by rfl) (by decide) (by rfl)

/-- C8 counterexample: a failing write on the first note makes the whole
export loop return that error — the run does not continue with the
remaining notes and no failure count is produced, contradicting the
claimed partial-success policy. -/
theorem C8_counterexample_write_failure_aborts :
    exportNotesLoop wFailW [wNoteA, wNoteB] 1 = Except.error 7 := by rfl

/-- C8 amended: neither write site has an exception handler, so an
error result is precisely the error of the first failing write.  Part
one: the note-export loop (restricted to notes whose title value is a
string, since a `None` title makes the source raise `TypeError` before
any write) returns the error of its first failing note-file write, with
every earlier note written and nothing after running.  Part two: the
per-note attachment loop returns the error of its first failing
attachment write — a write call that raised it exists — with every
earlier resource processed without error and nothing after running. -/
theorem C8_amended_first_failure_propagates {ε : Type}
    (W : String → String → Except ε Unit)
    (V : String → List Nat → Except ε Unit)
    (b64 : String → Option (List Nat)) (dir : String) (k : Nat) :
    (∀ (ns : List NoteDict) (i : Nat) (e : ε),
      (∀ n ∈ ns, ∃ s, pyGetD n "title" (PyVal.str "Untitled") = PyVal.str s) →
      exportNotesLoop W ns i = Except.error e →
      ∃ pre x post, ns = pre ++ x :: post ∧
        W (exportFilename (i + pre.length) x) (renderNote x) = Except.error e ∧
        ∀ j (hj : j < pre.length),
          W (exportFilename (i + j) (pre.get ⟨j, hj⟩))
            (renderNote (pre.get ⟨j, hj⟩)) = Except.ok ()) ∧
    (∀ (rs : List XmlElem) (e : ε),
      extractNoteResourcesW b64 V dir k rs = Except.error e →
      ∃ pre r post, rs = pre ++ r :: post ∧
        extractResourceW b64 V dir k r = Except.error e ∧
        (∃ path bytes, V path bytes = Except.error e) ∧
        ∀ j (hj : j < pre.length), ∃ o,
          extractResourceW b64 V dir k (pre.get ⟨j, hj⟩) = Except.ok o) := by
  constructor
  · intro ns
    induction ns with
    | nil =>
      intro i e _ h
      simp [exportNotesLoop] at h
    | cons n rest ih =>
      intro i e htitles h
      rw [exportNotesLoop] at h
      cases hW : W (exportFilename i n) (renderNote n) with
      | error e2 =>
        rw [hW] at h
        injection h with he
        subst he
        refine ⟨[], n, rest, rfl, ?_, ?_⟩
        · simpa using hW
        · intro j hj
          simp at hj
      | ok u =>
        rw [hW] at h
        cases hrec : exportNotesLoop W rest (i + 1) with
        | error e2 =>
          rw [hrec] at h
          injection h with he
          subst he
          obtain ⟨pre, x, post, hshape, hfail, hpre⟩ :=
            ih (i + 1) e2
              (fun n2 hn2 => htitles n2 (List.mem_cons_of_mem _ hn2)) hrec
          refine ⟨n :: pre, x, post, by simp [hshape], ?_, ?_⟩
          · have harith : i + (n :: pre).length = (i + 1) + pre.length := by
              simp [List.length_cons]
              omega
            rw [harith]
            exact hfail
          · intro j hj
            cases j with
            | zero =>
              cases u
              simpa using hW
            | succ k2 =>
              have hk : k2 < pre.length := by simpa using hj
              have := hpre k2 hk
              have harith : i + (k2 + 1) = (i + 1) + k2 := by omega
              rw [harith]
              simpa using this
        | ok l2 =>
          rw [hrec] at h
          simp at h
  · intro rs
    induction rs with
    | nil =>
      intro e h
      simp [extractNoteResourcesW] at h
    | cons r rest ih =>
      intro e h
      rw [extractNoteResourcesW] at h
      cases hR : extractResourceW b64 V dir k r with
      | error e2 =>
        rw [hR] at h
        injection h with he
        subst he
        refine ⟨[], r, rest, rfl, hR,
          extractResourceW_error b64 V dir k r e2 hR, ?_⟩
        intro j hj
        simp at hj
      | ok o =>
        rw [hR] at h
        cases hrec : extractNoteResourcesW b64 V dir k rest with
        | error e2 =>
          rw [hrec] at h
          injection h with he
          subst he
          obtain ⟨pre, x, post, hshape, hfail, hwrite, hpre⟩ := ih e2 hrec
          refine ⟨r :: pre, x, post, by simp [hshape], hfail, hwrite, ?_⟩
          intro j hj
          cases j with
          | zero => exact ⟨o, by simpa using hR⟩
          | succ k2 =>
            have hk : k2 < pre.length := by simpa using hj
            have := hpre k2 hk
            simpa using this
        | ok l2 =>
          rw [hrec] at h
          simp at h

/-- C8 witness: the amended statement at two concrete failing runs —
a note-file write failing on the first note, and an attachment write
failing on the first resource that gets that far (the preceding
`encoding="plain"` resource is skipped without a write). -/
theorem C8_witness :
    (∃ pre x post, [wNoteA, wNoteB] = pre ++ x :: post ∧
      wFailW (exportFilename (1 + pre.length) x) (renderNote x) =
        Except.error 7 ∧
      ∀ j (hj : j < pre.length),
        wFailW (exportFilename (1 + j) (pre.get ⟨j, hj⟩))
          (renderNote (pre.get ⟨j, hj⟩)) = Except.ok ()) ∧
    (∃ pre r post, [wResPlain, wResNoName] = pre ++ r :: post ∧
      extractResourceW wB64 wFailV "out" 1 r = Except.error 9 ∧
      (∃ path bytes, wFailV path bytes = Except.error 9) ∧
      ∀ j (hj : j < pre.length), ∃ o,
        extractResourceW wB64 wFailV "out" 1 (pre.get ⟨j, hj⟩) =
          Except.ok o) := by
  have h := C8_amended_first_failure_propagates wFailW wFailV wB64 "out" 1
  refine ⟨h.1 [wNoteA, wNoteB] 1 7 ?_ (by rfl),
    h.2 [wResPlain, wResNoName] 9 (by rfl)⟩
  intro n hn
  simp only [List.mem_cons, List.not_mem_nil, or_false] at hn
  rcases hn with rfl | rfl
  · exact ⟨"A", rfl⟩
  · exact ⟨"B", rfl⟩

/-- C9: a resource whose data element is absent, whose text is `None` or
empty, whose encoding is not base64, or whose payload fails to decode
yields no record and no file write, and the extraction of the remaining
resources of the note is unchanged — no exception propagates. -/
theorem C9_bad_resource_skipped (b64 : String → Option (List Nat))
    (dir : String) (i : Nat) (e : XmlElem)
    (h : e.findChild "data" = Option.none ∨
      ∃ d, e.findChild "data" = Option.some d ∧
        (pyTruthy d.text = false ∨
         (d.attrGet "encoding").getD "" ≠ "base64" ∨
         b64 (d.text.getD "") = Option.none)) :
    extractResource b64 dir i e = (Option.none, []) ∧
    ∀ pre post : List XmlElem,
      extractNoteResources b64 dir i (pre ++ e :: post) =
        extractNoteResources b64 dir i (pre ++ post) := by
  have hskip : extractResource b64 dir i e = (Option.none, []) := by
    rcases h with h | ⟨d, hd, hcase⟩
    · simp [extractResource, h]
    · rcases hcase with hc | hc | hc
      · simp [extractResource, hd, hc]
      · simp [extractResource, hd, hc]
      · by_cases hpt : pyTruthy d.text = false
        · simp [extractResource, hd, hpt]
        · by_cases henc2 : (d.attrGet "encoding").getD "" = "base64"
          · simp [extractResource, hd, hpt, henc2, hc]
          · simp [extractResource, hd, hpt, henc2]
  refine ⟨hskip, ?_⟩
  intro pre post
  induction pre with
  | nil => simp [extractNoteResources, hskip]
  | cons r rs ih => simp [extractNoteResources, ih]

/-- C9 witness: the spec's own scenario, a resource with
`encoding="plain"` between two good resources. -/
theorem C9_witness :
    extractResource wB64 "out" 1 wResPlain = (Option.none, []) ∧
    extractNoteResources wB64 "out" 1 ([wResNoName] ++ wResPlain :: [wResNamed]) =
      extractNoteResources wB64 "out" 1 ([wResNoName] ++ [wResNamed]) := by
  have h := C9_bad_resource_skipped wB64 "out" 1 wResPlain
    (Or.inr ⟨wResPlainData, by rfl, Or.inr (Or.inl (by decide))⟩)
  exact ⟨h.1, h.2 [wResNoName] [wResNamed]⟩

end Minerva
